import Mathlib

/-
  Verification of the Alliance module's reward & rebalancing accounting engine
  (terra-money/alliance), translated as a shallow embedding.

  Modelling conventions:
  * cosmossdk.io/math.LegacyDec values are modelled as exact rationals (ℚ).
    LegacyDec is an 18-decimal fixed-point type; on the quantities and
    operations exercised here the fixed-point results coincide with the exact
    rational results.
  * cosmossdk.io/math.Int values are modelled as ℤ.
  * time.Time and time.Duration values are modelled as integer nanosecond
    counts (ℤ).  Go's `time.Time.After`/`Before` become `<` on ℤ, and Go's
    duration division (int64 division, truncating toward zero) becomes
    Int.tdiv.
  * sdk.Coins values are modelled as association lists from denom to amount;
    sdk.Coins drops zero coins on Add, so the lists hold nonzero entries.
-/

namespace Alliance

/-- Truncation toward zero of a rational to an integer, the semantics of
LegacyDec.TruncateInt in the cosmos SDK. -/
def truncateInt (q : ℚ) : ℤ :=
  if 0 ≤ q then ⌊q⌋ else -⌊-q⌋

theorem truncateInt_of_nonneg {q : ℚ} (h : 0 ≤ q) : truncateInt q = ⌊q⌋ := by
  simp [truncateInt, h]

/-- Lookup in a denom-keyed association list, defaulting to zero, the
semantics of sdk.DecCoins.AmountOf / RewardHistories lookup. -/
def lookupOr0 (l : List (String × ℚ)) (d : String) : ℚ :=
  ((l.find? (fun p => p.1 = d)).map Prod.snd).getD 0

/-! ## Share/token conversion (x/alliance/types/asset.go) -/

/-- ConvertNewTokenToShares from x/alliance/types/asset.go: 1:1 when the pool
has no shares, otherwise scaled by the pool's shares-per-token rate. -/
def ConvertNewTokenToShares (totalTokens totalShares : ℚ) (newTokens : ℤ) : ℚ :=
  if totalShares = 0 then (newTokens : ℚ)
  else totalShares / totalTokens * newTokens

/-- ConvertNewShareToDecToken from x/alliance/types/asset.go: all tokens when
the pool has no shares, otherwise scaled by the pool's tokens-per-share rate. -/
def ConvertNewShareToDecToken (totalTokens totalShares shares : ℚ) : ℚ :=
  if totalShares = 0 then totalTokens
  else shares / totalShares * totalTokens

/-! ## Take-rate engine (keeper: DeductAssetsHook / DeductAssetsWithTakeRate) -/

/-- The fields of types.AllianceAsset read and written by the take-rate
engine.  Times are integer nanosecond counts. -/
structure TakeRateAsset where
  denom : String
  totalTokens : ℤ
  takeRate : ℚ
  rewardStartTime : ℤ
  deriving Repr, DecidableEq

/-- RewardsStarted from x/alliance/types/asset.go: blockTime is after or
equal to the asset's reward start time. -/
def rewardsStarted (blockTime startTime : ℤ) : Bool :=
  startTime ≤ blockTime

/-- Eligibility test from the loop of DeductAssetsWithTakeRate: positive
TotalTokens, positive TakeRate and rewards started. -/
def takeRateEligible (blockTime : ℤ) (a : TakeRateAsset) : Bool :=
  0 < a.totalTokens && 0 < a.takeRate && rewardsStarted blockTime a.rewardStartTime

/-- Number of whole claim intervals elapsed, as computed by
DeductAssetsWithTakeRate: uint64 of Go duration division (int64 division
truncating toward zero).  Negative elapsed durations do not occur because
DeductAssetsHook only fires when blockTime is after lastClaim + interval. -/
def goIntervals (blockTime last interval : ℤ) : ℕ :=
  ((blockTime - last).tdiv interval).toNat

/-- One asset's step of the DeductAssetsWithTakeRate loop.  Returns the
updated asset and the deducted amount (0 when skipped).  The skip guard
compares the pre-truncation decimal value against 1 (newAmount.LTE(OneDec)). -/
def deductOneAsset (intervals : ℕ) (blockTime : ℤ) (a : TakeRateAsset) :
    TakeRateAsset × ℤ :=
  if takeRateEligible blockTime a then
    let multiplier := (1 - a.takeRate) ^ intervals
    let newAmount := multiplier * (a.totalTokens : ℚ)
    if newAmount ≤ 1 then (a, 0)
    else ({ a with totalTokens := truncateInt newAmount },
          a.totalTokens - truncateInt newAmount)
  else (a, 0)

/-- DeductAssetsWithTakeRate from the keeper.  `lastClaim = none` models the
Go zero time.Time{}.  Returns the updated assets, the coins sent to the fee
collector (zero amounts dropped, as sdk.Coins.Add does) and the new
LastRewardClaimTime. -/
def deductAssetsWithTakeRate (blockTime interval : ℤ) (lastClaim : Option ℤ)
    (assets : List TakeRateAsset) :
    List TakeRateAsset × List (String × ℤ) × Option ℤ :=
  match lastClaim with
  | none => (assets, [], some blockTime)
  | some last =>
    let intervals := goIntervals blockTime last interval
    let stepped := assets.map (deductOneAsset intervals blockTime)
    let newAssets := stepped.map Prod.fst
    let coins := (stepped.filter (fun r => r.2 ≠ 0)).map (fun r => (r.1.denom, r.2))
    if (assets.countP (fun a => takeRateEligible blockTime a)) = 0 then
      (newAssets, coins, some blockTime)
    else if coins ≠ [] then
      (newAssets, coins, some (last + interval * intervals))
    else
      (newAssets, coins, some last)

/-- DeductAssetsHook from the keeper: fires the take-rate deduction only when
blockTime is strictly after lastClaim + interval. -/
def deductAssetsHook (blockTime interval last : ℤ)
    (assets : List TakeRateAsset) :
    List TakeRateAsset × List (String × ℤ) × Option ℤ :=
  if last + interval < blockTime then
    deductAssetsWithTakeRate blockTime interval (some last) assets
  else
    (assets, [], some last)

theorem goIntervals_eq_floor (blockTime last interval : ℤ)
    (hle : last ≤ blockTime) (hpos : 0 < interval) :
    goIntervals blockTime last interval = (blockTime - last).toNat / interval.toNat := by
  unfold goIntervals
  rw [Int.tdiv_eq_ediv (by omega) hpos.le]
  obtain ⟨d, hd⟩ : ∃ d : ℕ, blockTime - last = (d : ℤ) := ⟨(blockTime - last).toNat, by omega⟩
  obtain ⟨i, hi⟩ : ∃ i : ℕ, interval = (i : ℤ) := ⟨interval.toNat, by omega⟩
  rw [hd, hi, ← Int.natCast_div, Int.toNat_natCast, Int.toNat_natCast, Int.toNat_natCast]

theorem deductOneAsset_deducted (n : ℕ) (bt : ℤ) (a : TakeRateAsset) :
    (deductOneAsset n bt a).2 = a.totalTokens - (deductOneAsset n bt a).1.totalTokens := by
  simp only [deductOneAsset]
  split_ifs <;> simp

theorem deductOneAsset_denom (n : ℕ) (bt : ℤ) (a : TakeRateAsset) :
    (deductOneAsset n bt a).1.denom = a.denom := by
  simp only [deductOneAsset]
  split_ifs <;> simp

theorem deductOneAsset_of_deducted_zero (n : ℕ) (bt : ℤ) (a : TakeRateAsset)
    (h : (deductOneAsset n bt a).2 = 0) : (deductOneAsset n bt a).1 = a := by
  simp only [deductOneAsset] at h ⊢
  split_ifs at h ⊢ with h1 h2
  · rfl
  · have ht : truncateInt ((1 - a.takeRate) ^ n * (a.totalTokens : ℚ)) = a.totalTokens := by
      simp only [Prod.snd] at h
      omega
    simp [ht]
  · rfl

theorem deductOneAsset_of_not_eligible (n : ℕ) (bt : ℤ) (a : TakeRateAsset)
    (h : takeRateEligible bt a = false) : deductOneAsset n bt a = (a, 0) := by
  unfold deductOneAsset
  simp [h]

theorem takeRate_coins_spec (n : ℕ) (bt : ℤ) (assets : List TakeRateAsset) :
    ((assets.map (deductOneAsset n bt)).filter (fun r => r.2 ≠ 0)).map
        (fun r => (r.1.denom, r.2)) =
      (assets.zip (assets.map (fun a => (deductOneAsset n bt a).1))).filterMap
        (fun p => if p.1.totalTokens = p.2.totalTokens then none
                  else some (p.1.denom, p.1.totalTokens - p.2.totalTokens)) := by
  induction assets with
  | nil => rfl
  | cons a t ih =>
    have hd := deductOneAsset_deducted n bt a
    have hden := deductOneAsset_denom n bt a
    simp only [List.map_cons, List.zip_cons_cons, List.filter_cons, List.filterMap_cons]
    by_cases hz : (deductOneAsset n bt a).2 = 0
    · have heq : a.totalTokens = (deductOneAsset n bt a).1.totalTokens := by omega
      rw [if_pos heq, hz]
      simpa using ih
    · have hne : ¬ a.totalTokens = (deductOneAsset n bt a).1.totalTokens := by omega
      rw [if_neg hne]
      have hcond : (decide ¬(deductOneAsset n bt a).2 = 0) = true := by
        simpa using hz
      simp only [ne_eq, hcond, if_true, List.map_cons]
      rw [hden, hd]
      refine congrArg (List.cons _) ?_
      simpa using ih

theorem takeRate_coins_nil_of_no_eligible (n : ℕ) (bt : ℤ)
    (assets : List TakeRateAsset)
    (h : ∀ a ∈ assets, ¬ takeRateEligible bt a = true) :
    (assets.map (deductOneAsset n bt)).filter (fun r => r.2 ≠ 0) = [] := by
  induction assets with
  | nil => rfl
  | cons a t ih =>
    have ha : takeRateEligible bt a = false := by
      have := h a (by simp)
      simpa using this
    simp only [List.map_cons, List.filter_cons,
      deductOneAsset_of_not_eligible n bt a ha]
    simpa using ih (fun x hx => h x (by simp [hx]))

theorem forall₂_map_self {α : Type} (f : α → α) (P : α → α → Prop)
    (h : ∀ a, P a (f a)) (l : List α) : List.Forall₂ P l (l.map f) := by
  induction l with
  | nil => exact .nil
  | cons a t ih => exact .cons (h a) ih

theorem deductAssetsWithTakeRate_assets (bt i last : ℤ) (assets : List TakeRateAsset) :
    (deductAssetsWithTakeRate bt i (some last) assets).1 =
      assets.map (fun a => (deductOneAsset (goIntervals bt last i) bt a).1) := by
  simp only [deductAssetsWithTakeRate]
  split_ifs <;> simp [List.map_map, Function.comp]

theorem deductAssetsWithTakeRate_coins (bt i last : ℤ) (assets : List TakeRateAsset) :
    (deductAssetsWithTakeRate bt i (some last) assets).2.1 =
      ((assets.map (deductOneAsset (goIntervals bt last i) bt)).filter
          (fun r => r.2 ≠ 0)).map (fun r => (r.1.denom, r.2)) := by
  simp only [deductAssetsWithTakeRate]
  split_ifs <;> rfl

theorem deductAssetsWithTakeRate_lastClaim (bt i last : ℤ) (assets : List TakeRateAsset) :
    (deductAssetsWithTakeRate bt i (some last) assets).2.2 =
      (if assets.countP (fun a => takeRateEligible bt a) = 0 then some bt
       else if ((assets.map (deductOneAsset (goIntervals bt last i) bt)).filter
             (fun r => r.2 ≠ 0)).map (fun r => (r.1.denom, r.2)) ≠ [] then
         some (last + i * (goIntervals bt last i : ℕ))
       else some last) := by
  simp only [deductAssetsWithTakeRate]
  split_ifs <;> rfl

/-- C3 (amended): when the block time has passed lastClaimTime plus
claimInterval, with intervals = floor((now − lastClaimTime) / claimInterval),
every eligible asset (positive totalTokens, positive takeRate, reward start
passed) whose decimal post-tax value (1 − takeRate)^intervals × totalTokens
exceeds 1 has its totalTokens reduced to
floor(totalTokens × (1 − takeRate)^intervals); the transferred bundle holds
exactly the per-asset deductions, and when at least one asset was taxed
lastClaimTime advances by exactly intervals × claimInterval. -/
theorem takeRate_whole_intervals_c3 (blockTime interval last : ℤ)
    (assets : List TakeRateAsset) (hpos : 0 < interval)
    (hfire : last + interval < blockTime) :
    List.Forall₂ (fun a a' : TakeRateAsset =>
        takeRateEligible blockTime a = true →
        1 < (1 - a.takeRate) ^ ((blockTime - last).toNat / interval.toNat) *
            (a.totalTokens : ℚ) →
        a'.totalTokens =
          ⌊(1 - a.takeRate) ^ ((blockTime - last).toNat / interval.toNat) *
              (a.totalTokens : ℚ)⌋)
      assets (deductAssetsHook blockTime interval last assets).1
    ∧ (deductAssetsHook blockTime interval last assets).2.1 =
        (assets.zip (deductAssetsHook blockTime interval last assets).1).filterMap
          (fun p => if p.1.totalTokens = p.2.totalTokens then none
                    else some (p.1.denom, p.1.totalTokens - p.2.totalTokens))
    ∧ ((deductAssetsHook blockTime interval last assets).2.1 ≠ [] →
        (deductAssetsHook blockTime interval last assets).2.2 =
          some (last + interval *
            (((blockTime - last).toNat / interval.toNat : ℕ) : ℤ))) := by
  have hn := goIntervals_eq_floor blockTime last interval (by omega) hpos
  have hhook : deductAssetsHook blockTime interval last assets =
      deductAssetsWithTakeRate blockTime interval (some last) assets := by
    rw [deductAssetsHook, if_pos hfire]
  rw [hhook, ← hn]
  refine ⟨?_, ?_, ?_⟩
  · rw [deductAssetsWithTakeRate_assets]
    refine forall₂_map_self _ _ (fun a helig hgt => ?_) assets
    simp only [deductOneAsset, helig, if_true]
    rw [if_neg (not_le.mpr hgt)]
    exact truncateInt_of_nonneg (by linarith)
  · rw [deductAssetsWithTakeRate_coins, deductAssetsWithTakeRate_assets]
    exact takeRate_coins_spec _ _ _
  · intro hne
    rw [deductAssetsWithTakeRate_coins] at hne
    rw [deductAssetsWithTakeRate_lastClaim]
    have hcount : ¬ assets.countP (fun a => takeRateEligible blockTime a) = 0 := by
      intro h0
      apply hne
      rw [takeRate_coins_nil_of_no_eligible _ _ _ (by simpa using List.countP_eq_zero.mp h0)]
      rfl
    rw [if_neg hcount, if_pos hne]

theorem deductOneAsset_eval (n : ℕ) (bt : ℤ) (a : TakeRateAsset) (v : ℤ)
    (helig : takeRateEligible bt a = true)
    (hgt : 1 < (1 - a.takeRate) ^ n * (a.totalTokens : ℚ))
    (hv : ⌊(1 - a.takeRate) ^ n * (a.totalTokens : ℚ)⌋ = v) :
    deductOneAsset n bt a = ({ a with totalTokens := v }, a.totalTokens - v) := by
  simp only [deductOneAsset, helig, if_true]
  rw [if_neg (not_le.mpr hgt), truncateInt_of_nonneg (by linarith), hv]

theorem deductOneAsset_skip (n : ℕ) (bt : ℤ) (a : TakeRateAsset)
    (h : (1 - a.takeRate) ^ n * (a.totalTokens : ℚ) ≤ 1) :
    deductOneAsset n bt a = (a, 0) := by
  simp only [deductOneAsset]
  by_cases h1 : takeRateEligible bt a = true
  · rw [if_pos h1, if_pos h]
  · rw [if_neg h1]

/-- C3 counterexample: at blockTime 601 with claimInterval 300 and
lastClaimTime 0, an eligible asset with 2 tokens and take rate 1/2
(2 elapsed intervals) is left untouched by the code because its decimal
post-tax value 1/2 is ≤ 1, while the claim as stated demands its
totalTokens become floor(2 × (1/2)^2) = 0. -/
theorem takeRate_whole_intervals_c3_counterexample :
    takeRateEligible 601 ⟨"uluna", 2, 1/2, 0⟩ = true
    ∧ (deductAssetsHook 601 300 0 [⟨"uluna", 2, 1/2, 0⟩]).1 =
        [⟨"uluna", 2, 1/2, 0⟩]
    ∧ ⌊(1 - (1:ℚ)/2) ^ (((601:ℤ) - 0).toNat / (300:ℤ).toNat) * ((2:ℤ) : ℚ)⌋ ≠ 2 := by
  have htn : ((601:ℤ) - 0).toNat / (300:ℤ).toNat = 2 := by decide
  refine ⟨?_, ?_, ?_⟩
  · simp only [takeRateEligible, rewardsStarted, Bool.and_eq_true, decide_eq_true_eq]
    norm_num
  · have h2 : goIntervals 601 0 300 = 2 := by decide
    rw [deductAssetsHook, if_pos (by norm_num), deductAssetsWithTakeRate_assets, h2]
    simp only [List.map_cons, List.map_nil]
    rw [deductOneAsset_skip 2 601 _ (by norm_num)]
  · rw [htn]
    norm_num

/-- C3 witness: a concrete firing of the amended theorem; with 8 tokens at
take rate 1/2 over 2 intervals the deduction happens and lastClaimTime
advances to exactly 600 = 0 + 2 × 300. -/
theorem takeRate_whole_intervals_c3_witness :
    (deductAssetsHook 601 300 0 [⟨"uluna", 8, 1/2, 0⟩]).2.2 = some 600 := by
  have h := takeRate_whole_intervals_c3 601 300 0 [⟨"uluna", 8, 1/2, 0⟩]
    (by norm_num) (by norm_num)
  have h2 : goIntervals 601 0 300 = 2 := by decide
  have helig : takeRateEligible 601 (⟨"uluna", 8, 1/2, 0⟩ : TakeRateAsset) = true := by
    simp only [takeRateEligible, rewardsStarted, Bool.and_eq_true, decide_eq_true_eq]
    norm_num
  have hcoins : (deductAssetsHook 601 300 0 [⟨"uluna", 8, 1/2, 0⟩]).2.1 ≠ [] := by
    rw [deductAssetsHook, if_pos (by norm_num), deductAssetsWithTakeRate_coins, h2]
    simp only [List.map_cons, List.map_nil]
    rw [deductOneAsset_eval 2 601 _ 2 helig (by norm_num) (by norm_num)]
    simp
  have := h.2.2 hcoins
  rw [this]
  norm_num

theorem takeRateEligible_iff (bt : ℤ) (a : TakeRateAsset) :
    takeRateEligible bt a = true ↔
      0 < a.totalTokens ∧ 0 < a.takeRate ∧ a.rewardStartTime ≤ bt := by
  simp [takeRateEligible, rewardsStarted, and_assoc]

/-- C4 (amended): during take-rate deduction over at least one whole
interval, an eligible asset (takeRate in (0,1)) is skipped — left entirely
unchanged — exactly when its decimal post-tax value
(1 − takeRate)^intervals × totalTokens, before flooring, is ≤ 1; and any
asset holding at least one token still holds at least one token after the
deduction, so repeated taxation never brings totalTokens below 1. -/
theorem takeRate_floor_guard_c4 (n : ℕ) (blockTime : ℤ) (a : TakeRateAsset)
    (hn : 1 ≤ n) (hr1 : a.takeRate < 1) :
    (takeRateEligible blockTime a = true →
      ((deductOneAsset n blockTime a).1 = a ↔
        (1 - a.takeRate) ^ n * (a.totalTokens : ℚ) ≤ 1))
    ∧ (1 ≤ a.totalTokens → 1 ≤ (deductOneAsset n blockTime a).1.totalTokens) := by
  constructor
  · intro helig
    obtain ⟨htok0, hrate0, -⟩ := (takeRateEligible_iff blockTime a).mp helig
    constructor
    · intro heq
      by_contra hgt
      push_neg at hgt
      have hmlt : (1 - a.takeRate) ^ n < 1 := by
        apply pow_lt_one₀ (by linarith) (by linarith)
        omega
      have htokQ : (0:ℚ) < (a.totalTokens : ℚ) := by exact_mod_cast htok0
      have hlt : (1 - a.takeRate) ^ n * (a.totalTokens : ℚ) < (a.totalTokens : ℚ) := by
        nlinarith
      have heval := deductOneAsset_eval n blockTime a
        ⌊(1 - a.takeRate) ^ n * (a.totalTokens : ℚ)⌋ helig hgt rfl
      rw [heval] at heq
      have hfeq : ⌊(1 - a.takeRate) ^ n * (a.totalTokens : ℚ)⌋ = a.totalTokens :=
        congrArg TakeRateAsset.totalTokens heq
      have hfl : ⌊(1 - a.takeRate) ^ n * (a.totalTokens : ℚ)⌋ < a.totalTokens :=
        Int.floor_lt.mpr (by exact_mod_cast hlt)
      omega
    · intro hle
      rw [deductOneAsset_skip n blockTime a hle]
  · intro htok
    by_cases helig : takeRateEligible blockTime a = true
    · by_cases hle : (1 - a.takeRate) ^ n * (a.totalTokens : ℚ) ≤ 1
      · rw [deductOneAsset_skip n blockTime a hle]
        exact htok
      · push_neg at hle
        rw [deductOneAsset_eval n blockTime a
          ⌊(1 - a.takeRate) ^ n * (a.totalTokens : ℚ)⌋ helig hle rfl]
        exact Int.le_floor.mpr (by exact_mod_cast hle.le)
    · rw [deductOneAsset_of_not_eligible n blockTime a (by simpa using helig)]
      exact htok

/-- C4 counterexample: an asset with 3 tokens at take rate 1/2 over one
interval has floored post-tax value ⌊3/2⌋ = 1 ≤ 1, so the claim as stated
demands the reduction be skipped; the code instead reduces totalTokens from
3 to 1 because the skip guard compares the pre-floor value 3/2 against 1. -/
theorem takeRate_floor_guard_c4_counterexample :
    ⌊(1 - (1:ℚ)/2) ^ 1 * ((3:ℤ) : ℚ)⌋ ≤ 1
    ∧ (deductAssetsHook 301 300 0 [⟨"uluna", 3, 1/2, 0⟩]).1 =
        [⟨"uluna", 1, 1/2, 0⟩] := by
  constructor
  · norm_num
  · have h1 : goIntervals 301 0 300 = 1 := by decide
    have helig : takeRateEligible 301 (⟨"uluna", 3, 1/2, 0⟩ : TakeRateAsset) = true :=
      (takeRateEligible_iff _ _).mpr (by norm_num)
    rw [deductAssetsHook, if_pos (by norm_num), deductAssetsWithTakeRate_assets, h1]
    simp only [List.map_cons, List.map_nil]
    rw [deductOneAsset_eval 1 301 _ 1 helig (by norm_num) (by norm_num)]

/-- C4 witness: concrete instance of the amended theorem at 5 tokens, take
rate 1/2, one interval. -/
theorem takeRate_floor_guard_c4_witness :
    1 ≤ (deductOneAsset 1 301 ⟨"uluna", 5, 1/2, 0⟩).1.totalTokens :=
  (takeRate_floor_guard_c4 1 301 ⟨"uluna", 5, 1/2, 0⟩ le_rfl (by norm_num)).2
    (by norm_num)

/-- C10: when the take-rate deduction runs with at least one eligible asset
(started, positive totalTokens, positive takeRate) but no coins end up
deducted, lastClaimTime is left unchanged, so the elapsed intervals remain
pending for the next invocation. -/
theorem takeRate_lastClaim_unchanged_c10 (blockTime interval last : ℤ)
    (assets : List TakeRateAsset)
    (helig : ∃ a ∈ assets, takeRateEligible blockTime a = true)
    (hnone : (deductAssetsWithTakeRate blockTime interval (some last) assets).2.1 = []) :
    (deductAssetsWithTakeRate blockTime interval (some last) assets).2.2 = some last := by
  rw [deductAssetsWithTakeRate_lastClaim]
  have hcount : ¬ assets.countP (fun a => takeRateEligible blockTime a) = 0 := by
    intro h0
    obtain ⟨a, ha, he⟩ := helig
    exact absurd he (by simpa using List.countP_eq_zero.mp h0 a ha)
  rw [deductAssetsWithTakeRate_coins] at hnone
  rw [if_neg hcount, if_neg (fun h => h hnone)]

/-- C10 witness: one eligible asset whose deduction is skipped by the floor
protection; lastClaimTime stays at 0. -/
theorem takeRate_lastClaim_unchanged_c10_witness :
    (deductAssetsWithTakeRate 601 300 (some 0) [⟨"uluna", 2, 1/2, 0⟩]).2.2 =
      some 0 := by
  apply takeRate_lastClaim_unchanged_c10
  · exact ⟨⟨"uluna", 2, 1/2, 0⟩, by simp,
      (takeRateEligible_iff _ _).mpr (by norm_num)⟩
  · have h2 : goIntervals 601 0 300 = 2 := by decide
    rw [deductAssetsWithTakeRate_coins, h2]
    simp only [List.map_cons, List.map_nil]
    rw [deductOneAsset_skip 2 601 _ (by norm_num)]
    simp

/-- C8: for valid share conversions on a (validator, asset) pool (positive
pool tokens; nonnegative shares, positive for the share→token direction),
shares are zero exactly when tokens are zero — in particular converting a
zero token amount never yields positive shares — and both conversion
directions are monotonic. -/
theorem share_conversion_zero_iff_monotone_c8 (tT tS : ℚ)
    (hT : 0 < tT) (hS : 0 ≤ tS) :
    (∀ n : ℤ, ConvertNewTokenToShares tT tS n = 0 ↔ n = 0)
    ∧ (∀ n m : ℤ, n ≤ m →
        ConvertNewTokenToShares tT tS n ≤ ConvertNewTokenToShares tT tS m)
    ∧ (0 < tS → ∀ s : ℚ, (ConvertNewShareToDecToken tT tS s = 0 ↔ s = 0))
    ∧ (0 < tS → ∀ s u : ℚ, s ≤ u →
        ConvertNewShareToDecToken tT tS s ≤ ConvertNewShareToDecToken tT tS u) := by
  refine ⟨?_, ?_, ?_, ?_⟩
  · intro n
    by_cases h : tS = 0
    · simp [ConvertNewTokenToShares, h]
    · have hq : tS / tT ≠ 0 := div_ne_zero h (ne_of_gt hT)
      simp [ConvertNewTokenToShares, h, mul_eq_zero, hq]
  · intro n m hnm
    by_cases h : tS = 0
    · simp only [ConvertNewTokenToShares, h, if_true]
      exact_mod_cast hnm
    · simp only [ConvertNewTokenToShares, h, if_false]
      have hq : 0 ≤ tS / tT := div_nonneg hS hT.le
      exact mul_le_mul_of_nonneg_left (by exact_mod_cast hnm) hq
  · intro hS0 s
    have h : tS ≠ 0 := ne_of_gt hS0
    simp [ConvertNewShareToDecToken, h, div_eq_zero_iff, mul_eq_zero, ne_of_gt hT]
  · intro hS0 s u hsu
    have h : tS ≠ 0 := ne_of_gt hS0
    simp only [ConvertNewShareToDecToken, h, if_false]
    have h1 : s / tS ≤ u / tS := by gcongr
    exact mul_le_mul_of_nonneg_right h1 hT.le

/-- C8 witness: a pool with 2 tokens and 4 shares; converting 0 tokens
yields 0 shares. -/
theorem share_conversion_zero_iff_monotone_c8_witness :
    ConvertNewTokenToShares 2 4 0 = 0 :=
  ((share_conversion_zero_iff_monotone_c8 2 4 (by norm_num) (by norm_num)).1 0).mpr rfl

/-! ## Asset registry, validator reward index and weight-change snapshots

The asset fields follow types.AllianceAsset; the validator fields follow
types.AllianceValidator / AllianceValidatorInfo.  The keeper functions
UpdateAllianceAsset and RewardWeightChangeHook are translated from
x/alliance/keeper (asset.go); AddAssetsToRewardPool and
ClaimValidatorRewards are modelled from the spec since keeper/reward.go is
not part of the sources. -/

structure AllianceAsset where
  denom : String
  rewardWeight : ℚ
  minWeight : ℚ
  maxWeight : ℚ
  takeRate : ℚ
  totalTokens : ℤ
  rewardStartTime : ℤ
  rewardChangeRate : ℚ
  rewardChangeInterval : ℤ
  lastRewardChangeTime : ℤ
  deriving Repr, DecidableEq

structure AllianceValidator where
  addr : String
  assetTokens : List (String × ℚ)
  globalRewardHistory : List (String × ℚ)
  pendingRewards : List (String × ℚ)
  deriving Repr, DecidableEq

/-- Total weighted value of a validator: sum over assets of
rewardWeight × the validator's token amount in that asset. -/
def totalWeightedValue (assets : List AllianceAsset) (v : AllianceValidator) : ℚ :=
  (assets.map (fun a => a.rewardWeight * lookupOr0 v.assetTokens a.denom)).sum

/-- Point update of a reward-history vector: bump an existing denom's index
by delta, or union in a new denom starting from index 0. -/
def addCoinToHistory (hist : List (String × ℚ)) (d : String) (delta : ℚ) :
    List (String × ℚ) :=
  if (hist.find? (fun p => p.1 = d)).isSome then
    hist.map (fun p => if p.1 = d then (p.1, p.2 + delta) else p)
  else hist ++ [(d, delta)]

/-- Modelled from the spec: AddAssetsToRewardPool (keeper/reward.go is not
among the sources).  When reward coins of amount A in denom D are added to a
validator's pool, the validator's global index for D increases by
A / total_weighted_value; when the total weighted value is zero the amount
bypasses distribution and the index is unchanged. -/
def addAssetsToRewardPool (assets : List AllianceAsset) (v : AllianceValidator)
    (coins : List (String × ℚ)) : AllianceValidator :=
  coins.foldl (fun w c =>
    let twv := totalWeightedValue assets w
    if twv = 0 then w
    else { w with globalRewardHistory := addCoinToHistory w.globalRewardHistory c.1 (c.2 / twv) }) v

/-- Modelled from the spec: ClaimValidatorRewards (keeper/reward.go is not
among the sources).  Settling a validator flushes its accrued (pending)
rewards into the reward pool at the weights currently in effect and clears
the pending rewards. -/
def claimValidatorRewards (assets : List AllianceAsset) (v : AllianceValidator) :
    AllianceValidator :=
  let w := addAssetsToRewardPool assets v v.pendingRewards
  { w with pendingRewards := [] }

structure RewardWeightChangeSnapshot where
  prevRewardWeight : ℚ
  rewardHistories : List (String × ℚ)
  deriving Repr, DecidableEq

structure AllianceState where
  assets : List AllianceAsset
  validators : List AllianceValidator
  snapshots : List (String × String × ℕ × RewardWeightChangeSnapshot)
  rebalanceQueued : Bool
  deriving Repr, DecidableEq

inductive AllianceErr where
  | unknownAsset
  | rewardWeightOutOfBound
  deriving Repr, DecidableEq

/-- UpdateAllianceAsset from the keeper: validates the denom and the new
weight against the update's own bounds, settles every validator and writes
one weight-change snapshot per validator at the current height when the
reward weight actually changes, restarts the decay clock when a decay
schedule is first introduced, and persists only the whitelisted fields. -/
def updateAllianceAsset (s : AllianceState) (height : ℕ) (blockTime : ℤ)
    (newAsset : AllianceAsset) : AllianceState × Option AllianceErr :=
  match s.assets.find? (fun a => a.denom = newAsset.denom) with
  | none => (s, some .unknownAsset)
  | some asset =>
    if newAsset.rewardWeight < newAsset.minWeight ∨
        newAsset.maxWeight < newAsset.rewardWeight then
      (s, some .rewardWeightOutOfBound)
    else
      let s1 :=
        if newAsset.rewardWeight ≠ asset.rewardWeight then
          { s with
            validators := s.validators.map (fun v => claimValidatorRewards s.assets v),
            snapshots := s.snapshots ++ s.validators.map (fun v =>
              (newAsset.denom, v.addr, height,
                { prevRewardWeight := asset.rewardWeight,
                  rewardHistories := (claimValidatorRewards s.assets v).globalRewardHistory })),
            rebalanceQueued := true }
        else s
      let lastChange :=
        if (newAsset.rewardChangeRate ≠ asset.rewardChangeRate ∨
            newAsset.rewardChangeInterval ≠ asset.rewardChangeInterval) ∧
            (asset.rewardChangeRate = 1 ∨ asset.rewardChangeInterval = 0) then blockTime
        else newAsset.lastRewardChangeTime
      let asset1 := { asset with
        takeRate := newAsset.takeRate,
        rewardWeight := newAsset.rewardWeight,
        rewardChangeRate := newAsset.rewardChangeRate,
        rewardChangeInterval := newAsset.rewardChangeInterval,
        lastRewardChangeTime := lastChange }
      ({ s1 with
          assets := s1.assets.map (fun a => if a.denom = newAsset.denom then asset1 else a) },
        none)

/-- The per-asset decay computation of RewardWeightChangeHook: none when no
change is due (no schedule, rate 1, or a full interval has not elapsed),
otherwise the asset with the compounded, range-limited weight and the decay
clock advanced by whole intervals. -/
def decayAsset (blockTime : ℤ) (a : AllianceAsset) : Option AllianceAsset :=
  if a.rewardChangeInterval = 0 ∨ a.rewardChangeRate = 1 then none
  else if blockTime < a.lastRewardChangeTime + a.rewardChangeInterval then none
  else
    let n := goIntervals blockTime a.lastRewardChangeTime a.rewardChangeInterval
    let w1 := a.rewardWeight * a.rewardChangeRate ^ n
    let w2 := if w1 < a.minWeight then a.minWeight else w1
    let w3 := if a.maxWeight < w2 then a.maxWeight else w2
    some { a with rewardWeight := w3,
                  lastRewardChangeTime :=
                    a.lastRewardChangeTime + a.rewardChangeInterval * n }

/-- The iteration of RewardWeightChangeHook over the asset list passed by
the end-blocker: decayed assets are written back through
updateAllianceAsset after queueing a rebalance, stopping on the first
error. -/
def rewardWeightChangeHookAux (height : ℕ) (blockTime : ℤ) :
    AllianceState → List AllianceAsset → AllianceState × Option AllianceErr
  | s, [] => (s, none)
  | s, a :: rest =>
    match decayAsset blockTime a with
    | none => rewardWeightChangeHookAux height blockTime s rest
    | some a1 =>
      let s1 := { s with rebalanceQueued := true }
      match updateAllianceAsset s1 height blockTime a1 with
      | (s2, none) => rewardWeightChangeHookAux height blockTime s2 rest
      | (s2, some e) => (s2, some e)

/-- RewardWeightChangeHook from the keeper, applied to the current asset
list as the end-blocker does. -/
def rewardWeightChangeHook (s : AllianceState) (height : ℕ) (blockTime : ℤ) :
    AllianceState × Option AllianceErr :=
  rewardWeightChangeHookAux height blockTime s s.assets

/-- Clamp into a weight range, the spec's description of the decay bound. -/
def clampQ (x lo hi : ℚ) : ℚ :=
  if x < lo then lo else if hi < x then hi else x

theorem updateAllianceAsset_snd (s : AllianceState) (height : ℕ) (blockTime : ℤ)
    (newAsset asset : AllianceAsset)
    (hfind : s.assets.find? (fun a => a.denom = newAsset.denom) = some asset)
    (hbounds : ¬(newAsset.rewardWeight < newAsset.minWeight ∨
        newAsset.maxWeight < newAsset.rewardWeight)) :
    (updateAllianceAsset s height blockTime newAsset).2 = none := by
  simp only [updateAllianceAsset, hfind]
  rw [if_neg hbounds]

theorem updateAllianceAsset_assets (s : AllianceState) (height : ℕ) (blockTime : ℤ)
    (newAsset asset : AllianceAsset)
    (hfind : s.assets.find? (fun a => a.denom = newAsset.denom) = some asset)
    (hbounds : ¬(newAsset.rewardWeight < newAsset.minWeight ∨
        newAsset.maxWeight < newAsset.rewardWeight)) :
    (updateAllianceAsset s height blockTime newAsset).1.assets =
      s.assets.map (fun a => if a.denom = newAsset.denom then
        { asset with
          takeRate := newAsset.takeRate,
          rewardWeight := newAsset.rewardWeight,
          rewardChangeRate := newAsset.rewardChangeRate,
          rewardChangeInterval := newAsset.rewardChangeInterval,
          lastRewardChangeTime :=
            if (newAsset.rewardChangeRate ≠ asset.rewardChangeRate ∨
                newAsset.rewardChangeInterval ≠ asset.rewardChangeInterval) ∧
                (asset.rewardChangeRate = 1 ∨ asset.rewardChangeInterval = 0) then blockTime
            else newAsset.lastRewardChangeTime } else a) := by
  simp only [updateAllianceAsset, hfind]
  rw [if_neg hbounds]
  by_cases hw : newAsset.rewardWeight = asset.rewardWeight <;> simp [hw]

theorem decay_clamp_eq (x lo hi : ℚ) (h : lo ≤ hi) :
    (if hi < (if x < lo then lo else x) then hi else (if x < lo then lo else x)) =
      clampQ x lo hi := by
  unfold clampQ
  split_ifs <;> first | rfl | linarith

/-- C5: for an asset with a decay schedule (rewardChangeInterval > 0,
rewardChangeRate ≠ 1, min ≤ max), once at least one full interval has
elapsed the decay hook succeeds, sets rewardWeight to
clamp(rewardWeight × rewardChangeRate^n, min, max) with
n = floor((now − lastRewardChangeTime) / rewardChangeInterval), and advances
lastRewardChangeTime by exactly n × rewardChangeInterval (whole intervals,
never snapping to now); before a full interval has elapsed the hook changes
nothing. -/
theorem reward_weight_decay_c5 (a : AllianceAsset) (vs : List AllianceValidator)
    (snaps : List (String × String × ℕ × RewardWeightChangeSnapshot)) (q : Bool)
    (height : ℕ) (blockTime : ℤ)
    (hint : 0 < a.rewardChangeInterval) (hrate : a.rewardChangeRate ≠ 1)
    (hminmax : a.minWeight ≤ a.maxWeight) :
    (blockTime < a.lastRewardChangeTime + a.rewardChangeInterval →
      rewardWeightChangeHook ⟨[a], vs, snaps, q⟩ height blockTime =
        (⟨[a], vs, snaps, q⟩, none))
    ∧ (a.lastRewardChangeTime + a.rewardChangeInterval ≤ blockTime →
        (rewardWeightChangeHook ⟨[a], vs, snaps, q⟩ height blockTime).2 = none
        ∧ (rewardWeightChangeHook ⟨[a], vs, snaps, q⟩ height blockTime).1.assets.map
              (fun x => (x.rewardWeight, x.lastRewardChangeTime)) =
            [(clampQ (a.rewardWeight * a.rewardChangeRate ^
                  ((blockTime - a.lastRewardChangeTime).toNat / a.rewardChangeInterval.toNat))
                a.minWeight a.maxWeight,
              a.lastRewardChangeTime + a.rewardChangeInterval *
                (((blockTime - a.lastRewardChangeTime).toNat /
                    a.rewardChangeInterval.toNat : ℕ) : ℤ))]) := by
  have hnot : ¬(a.rewardChangeInterval = 0 ∨ a.rewardChangeRate = 1) := by
    push_neg
    exact ⟨by omega, hrate⟩
  constructor
  · intro hlt
    have hdec : decayAsset blockTime a = none := by
      simp only [decayAsset]
      rw [if_neg hnot, if_pos hlt]
    simp only [rewardWeightChangeHook, rewardWeightChangeHookAux, hdec]
  · intro hge
    have hn := goIntervals_eq_floor blockTime a.lastRewardChangeTime a.rewardChangeInterval
      (by omega) hint
    set n : ℕ := (blockTime - a.lastRewardChangeTime).toNat / a.rewardChangeInterval.toNat
      with hndef
    set w1 : ℚ := a.rewardWeight * a.rewardChangeRate ^ n with hw1def
    set w3 : ℚ := if a.maxWeight < (if w1 < a.minWeight then a.minWeight else w1)
      then a.maxWeight else (if w1 < a.minWeight then a.minWeight else w1) with hw3def
    set a1 : AllianceAsset := ({ a with
      rewardWeight := w3
      lastRewardChangeTime := a.lastRewardChangeTime + a.rewardChangeInterval * n } :
        AllianceAsset) with ha1def
    have hdec : decayAsset blockTime a = some a1 := by
      simp only [decayAsset]
      rw [if_neg hnot, if_neg (not_lt.mpr hge), hn, ha1def, hw3def, hw1def]
    have hinb : ¬(a1.rewardWeight < a1.minWeight ∨ a1.maxWeight < a1.rewardWeight) := by
      push_neg
      rw [ha1def]
      constructor
      · simp only [hw3def]
        split_ifs <;> linarith
      · simp only [hw3def]
        split_ifs <;> linarith
    have hfind : (⟨[a], vs, snaps, true⟩ : AllianceState).assets.find?
        (fun x => x.denom = a1.denom) = some a :=
      List.find?_cons_of_pos _ (decide_eq_true rfl)
    have hsnd := updateAllianceAsset_snd ⟨[a], vs, snaps, true⟩ height blockTime a1 a hfind hinb
    have hassets := updateAllianceAsset_assets ⟨[a], vs, snaps, true⟩ height blockTime a1 a hfind hinb
    rcases hupdeq : updateAllianceAsset ⟨[a], vs, snaps, true⟩ height blockTime a1 with ⟨s2, e2⟩
    rw [hupdeq] at hsnd hassets
    simp only at hsnd hassets
    subst hsnd
    have hhook : rewardWeightChangeHook ⟨[a], vs, snaps, q⟩ height blockTime = (s2, none) := by
      show rewardWeightChangeHookAux height blockTime ⟨[a], vs, snaps, q⟩ [a] = (s2, none)
      rw [rewardWeightChangeHookAux, hdec]
      simp only [hupdeq, rewardWeightChangeHookAux]
    rw [hhook]
    refine ⟨rfl, ?_⟩
    show s2.assets.map (fun x => (x.rewardWeight, x.lastRewardChangeTime)) = _
    rw [hassets]
    have hcond : ¬((a.rewardChangeRate ≠ a.rewardChangeRate ∨
        a.rewardChangeInterval ≠ a.rewardChangeInterval) ∧
        (a.rewardChangeRate = 1 ∨ a.rewardChangeInterval = 0)) := by
      rintro ⟨hor, -⟩
      rcases hor with h | h
      · exact h rfl
      · exact h rfl
    simp only [List.map_cons, List.map_nil, if_true]
    rw [if_neg hcond]
    rw [← decay_clamp_eq w1 a.minWeight a.maxWeight hminmax]

/-- C5 witness: asset with weight 0.075, range [0.05, 0.10], change rate 1.5,
interval 100, at block time 250 (two whole intervals elapsed); the decay
hook succeeds. -/
theorem reward_weight_decay_c5_witness :
    (rewardWeightChangeHook
      ⟨[⟨"uluna", 3/40, 1/20, 1/10, 0, 0, 0, 3/2, 100, 0⟩], [], [], false⟩ 5 250).2 =
      none :=
  ((reward_weight_decay_c5 ⟨"uluna", 3/40, 1/20, 1/10, 0, 0, 0, 3/2, 100, 0⟩ [] [] false 5 250
      (by norm_num) (by norm_num) (by norm_num)).2 (by norm_num)).1

/-- C6: a weight-change snapshot is written exactly when the configured
reward weight actually changes.  Updating with an unchanged weight writes no
snapshot; updating with a different weight settles every validator's
outstanding rewards at the old weights and appends one snapshot per
validator at the current height, recording the pre-change reward weight and
that validator's (settled) global index vector. -/
theorem snapshot_on_weight_change_c6 (s : AllianceState) (height : ℕ) (blockTime : ℤ)
    (newAsset asset : AllianceAsset)
    (hfind : s.assets.find? (fun a => a.denom = newAsset.denom) = some asset)
    (hbounds : ¬(newAsset.rewardWeight < newAsset.minWeight ∨
        newAsset.maxWeight < newAsset.rewardWeight)) :
    (newAsset.rewardWeight = asset.rewardWeight →
      (updateAllianceAsset s height blockTime newAsset).1.snapshots = s.snapshots)
    ∧ (newAsset.rewardWeight ≠ asset.rewardWeight →
      (updateAllianceAsset s height blockTime newAsset).1.validators =
          s.validators.map (fun v => claimValidatorRewards s.assets v)
        ∧ (updateAllianceAsset s height blockTime newAsset).1.snapshots =
          s.snapshots ++ s.validators.map (fun v =>
            (newAsset.denom, v.addr, height,
              ⟨asset.rewardWeight, (claimValidatorRewards s.assets v).globalRewardHistory⟩))) := by
  constructor
  · intro heq
    simp only [updateAllianceAsset, hfind]
    rw [if_neg hbounds, if_neg (not_not_intro heq)]
  · intro hne
    simp only [updateAllianceAsset, hfind]
    rw [if_neg hbounds, if_pos hne]
    exact ⟨rfl, rfl⟩

def exAsset : AllianceAsset := ⟨"uluna", 2, 0, 5, 0, 0, 0, 1, 0, 0⟩

def exAssetNew : AllianceAsset := ⟨"uluna", 3, 0, 5, 0, 0, 0, 1, 0, 0⟩

def exAssetBad : AllianceAsset := ⟨"uluna", 7, 0, 5, 0, 0, 0, 1, 0, 0⟩

def exVal : AllianceValidator := ⟨"val1", [("uluna", 1)], [], []⟩

def exState : AllianceState := ⟨[exAsset], [exVal], [], false⟩

/-- C6 witness: raising the weight from 2 to 3 on a one-validator state
settles that validator. -/
theorem snapshot_on_weight_change_c6_witness :
    (updateAllianceAsset exState 7 123 exAssetNew).1.validators =
      [claimValidatorRewards exState.assets exVal] := by
  have h := snapshot_on_weight_change_c6 exState 7 123 exAssetNew exAsset
    (List.find?_cons_of_pos _ (decide_eq_true rfl))
    (by simp only [exAssetNew]; norm_num)
  rw [(h.2 (by simp only [exAssetNew, exAsset]; norm_num)).1]
  simp [exState]

/-- C9: an asset update naming an unknown denom, or placing the new reward
weight outside the update's own configured weight range, returns the
corresponding error (unknown-asset, weight-out-of-bounds) and leaves the
state unmutated. -/
theorem update_error_no_mutation_c9 (s : AllianceState) (height : ℕ) (blockTime : ℤ)
    (newAsset : AllianceAsset) :
    (s.assets.find? (fun a => a.denom = newAsset.denom) = none →
      updateAllianceAsset s height blockTime newAsset = (s, some .unknownAsset))
    ∧ (∀ asset, s.assets.find? (fun a => a.denom = newAsset.denom) = some asset →
        (newAsset.rewardWeight < newAsset.minWeight ∨
          newAsset.maxWeight < newAsset.rewardWeight) →
        updateAllianceAsset s height blockTime newAsset =
          (s, some .rewardWeightOutOfBound)) := by
  constructor
  · intro hnone
    simp only [updateAllianceAsset, hnone]
  · intro asset hfind hout
    simp only [updateAllianceAsset, hfind]
    rw [if_pos hout]

/-- C9 witness: an update against an empty registry fails with
unknown-asset; a weight of 7 against bounds [0,5] fails with
weight-out-of-bounds; neither mutates the state. -/
theorem update_error_no_mutation_c9_witness :
    updateAllianceAsset ⟨[], [], [], false⟩ 1 0 exAssetNew =
      (⟨[], [], [], false⟩, some .unknownAsset)
    ∧ updateAllianceAsset exState 1 0 exAssetBad =
      (exState, some .rewardWeightOutOfBound) :=
  ⟨(update_error_no_mutation_c9 ⟨[], [], [], false⟩ 1 0 exAssetNew).1 rfl,
   (update_error_no_mutation_c9 exState 1 0 exAssetBad).2 exAsset
     (List.find?_cons_of_pos _ (decide_eq_true rfl))
     (by simp only [exAssetBad]; norm_num)⟩

theorem lookupOr0_nil (d : String) : lookupOr0 [] d = 0 := rfl

theorem lookupOr0_cons_pos (p : String × ℚ) (t : List (String × ℚ)) (d : String)
    (h : p.1 = d) : lookupOr0 (p :: t) d = p.2 := by
  simp [lookupOr0, List.find?_cons_of_pos, h]

theorem lookupOr0_cons_neg (p : String × ℚ) (t : List (String × ℚ)) (d : String)
    (h : ¬ p.1 = d) : lookupOr0 (p :: t) d = lookupOr0 t d := by
  simp [lookupOr0, List.find?_cons_of_neg, h]

theorem lookupOr0_addCoinToHistory (l : List (String × ℚ)) (d : String) (delta : ℚ) :
    lookupOr0 (addCoinToHistory l d delta) d = lookupOr0 l d + delta := by
  induction l with
  | nil =>
    simp [addCoinToHistory, lookupOr0]
  | cons p t ih =>
    by_cases hp : p.1 = d
    · have hfind : (((p :: t).find? (fun q => q.1 = d)).isSome) = true := by
        rw [List.find?_cons_of_pos _ (by simpa using hp)]
        rfl
      rw [addCoinToHistory, if_pos hfind]
      simp only [List.map_cons, if_pos hp]
      rw [lookupOr0_cons_pos (p.1, p.2 + delta) _ _ hp, lookupOr0_cons_pos p t d hp]
    · have hskip : ((p :: t).find? (fun q => q.1 = d)) = t.find? (fun q => q.1 = d) :=
        List.find?_cons_of_neg _ (by simpa using hp)
      by_cases ht : ((t.find? (fun q => q.1 = d)).isSome) = true
      · have hfind : (((p :: t).find? (fun q => q.1 = d)).isSome) = true := by
          rw [hskip]
          exact ht
        rw [addCoinToHistory, if_pos hfind]
        rw [addCoinToHistory, if_pos ht] at ih
        simp only [List.map_cons, if_neg hp]
        rw [lookupOr0_cons_neg _ _ _ hp, lookupOr0_cons_neg _ _ _ hp]
        exact ih
      · have hfind : ¬ (((p :: t).find? (fun q => q.1 = d)).isSome) = true := by
          rw [hskip]
          exact ht
        rw [addCoinToHistory, if_neg hfind]
        rw [addCoinToHistory, if_neg ht] at ih
        rw [List.cons_append]
        rw [lookupOr0_cons_neg _ _ _ hp, lookupOr0_cons_neg _ _ _ hp]
        exact ih

def c2Asset1 : AllianceAsset := ⟨"alliance", 2, 0, 5, 0, 0, 0, 1, 0, 0⟩

def c2Asset2 : AllianceAsset := ⟨"alliance2", 10, 5, 15, 0, 0, 0, 1, 0, 0⟩

def c2Val0 : AllianceValidator := ⟨"v", [("alliance", 1000000)], [], []⟩

theorem c2_twv1 : totalWeightedValue [c2Asset1] c2Val0 = 2000000 := by
  simp only [totalWeightedValue, c2Asset1, c2Val0, List.map_cons, List.map_nil,
    List.sum_cons, List.sum_nil]
  rw [lookupOr0_cons_pos _ _ _ rfl]
  norm_num

theorem c2_deposit1 : addAssetsToRewardPool [c2Asset1] c2Val0 [("stake", 2000000)] =
    { c2Val0 with globalRewardHistory := [("stake", 1)] } := by
  simp only [addAssetsToRewardPool, List.foldl_cons, List.foldl_nil]
  rw [if_neg (by rw [c2_twv1]; norm_num), c2_twv1]
  have hequal : (2000000 : ℚ) / 2000000 = 1 := by norm_num
  simp only [c2Val0, addCoinToHistory, List.find?_nil, Option.isSome_none,
    Bool.false_eq_true, if_false, List.nil_append, hequal]

/-- C2: depositing reward coins of amount A in denom D to a validator whose
total weighted value (sum over assets of rewardWeight × the validator's
token amount) is nonzero increases the validator's global index for D by
exactly A divided by that total weighted value; in particular depositing
2,000,000 against weighted value 2 × 1,000,000 yields index exactly 1, and a
further deposit of 2,000,000 after the weighted value becomes 12,000,000
yields index exactly 7/6. -/
theorem reward_index_deposit_c2 :
    (∀ (assets : List AllianceAsset) (v : AllianceValidator) (d : String) (amt : ℚ),
      totalWeightedValue assets v ≠ 0 →
      lookupOr0 (addAssetsToRewardPool assets v [(d, amt)]).globalRewardHistory d =
        lookupOr0 v.globalRewardHistory d + amt / totalWeightedValue assets v)
    ∧ lookupOr0 (addAssetsToRewardPool [c2Asset1] c2Val0
        [("stake", 2000000)]).globalRewardHistory "stake" = 1
    ∧ lookupOr0 (addAssetsToRewardPool [c2Asset1, c2Asset2]
        { addAssetsToRewardPool [c2Asset1] c2Val0 [("stake", 2000000)] with
          assetTokens := [("alliance", 1000000), ("alliance2", 1000000)] }
        [("stake", 2000000)]).globalRewardHistory "stake" = 7/6 := by
  refine ⟨?_, ?_, ?_⟩
  · intro assets v d amt htwv
    simp only [addAssetsToRewardPool, List.foldl_cons, List.foldl_nil]
    rw [if_neg htwv]
    exact lookupOr0_addCoinToHistory _ _ _
  · rw [c2_deposit1, lookupOr0_cons_pos _ _ _ rfl]
  · rw [c2_deposit1]
    have htwv2 : totalWeightedValue [c2Asset1, c2Asset2]
        ({ { c2Val0 with globalRewardHistory := [("stake", 1)] } with
          assetTokens := [("alliance", 1000000), ("alliance2", 1000000)] }) = 12000000 := by
      simp only [totalWeightedValue, c2Asset1, c2Asset2, c2Val0, List.map_cons,
        List.map_nil, List.sum_cons, List.sum_nil]
      rw [lookupOr0_cons_pos _ _ _ rfl,
        lookupOr0_cons_neg _ _ _ (by decide), lookupOr0_cons_pos _ _ _ rfl]
      norm_num
    simp only [addAssetsToRewardPool, List.foldl_cons, List.foldl_nil]
    rw [if_neg (by rw [htwv2]; norm_num), htwv2]
    have hfind : ((([("stake", (1:ℚ))]).find? (fun q => q.1 = "stake")).isSome) = true := by
      rw [List.find?_cons_of_pos _ (by decide)]
      rfl
    simp only [addCoinToHistory]
    rw [if_pos hfind]
    simp only [List.map_cons, List.map_nil, if_true]
    rw [lookupOr0_cons_pos _ _ _ rfl]
    norm_num

/-- C2 witness: the general deposit law applied at the concrete validator of
the scenario. -/
theorem reward_index_deposit_c2_witness :
    lookupOr0 (addAssetsToRewardPool [c2Asset1] c2Val0
        [("stake", 2000000)]).globalRewardHistory "stake" =
      lookupOr0 c2Val0.globalRewardHistory "stake" +
        2000000 / totalWeightedValue [c2Asset1] c2Val0 :=
  reward_index_deposit_c2.1 [c2Asset1] c2Val0 "stake" 2000000
    (by rw [c2_twv1]; norm_num)

/-! ## Claim across weight-change snapshots -/

inductive RewardEvent where
  | deposit (delta : ℚ)
  | weightChange (w : ℚ)
  deriving Repr, DecidableEq

structure RunResult where
  finalWeight : ℚ
  finalIndex : ℚ
  snaps : List (ℚ × ℚ)
  deriving Repr, DecidableEq

/-- Modelled from the spec: the recorded history of one (asset, validator)
pair after a delegation's last settlement (keeper/reward.go is not among the
sources).  A deposit advances the global index by
delta = amount / totalWeightedValue; a weight change appends a snapshot
recording the pre-change weight and the index at that height, then applies
the new weight.  The snapshot list is produced in ascending height order,
matching forward iteration of the snapshot log. -/
def runEvents : ℚ → ℚ → List RewardEvent → RunResult
  | w, i, [] => ⟨w, i, []⟩
  | w, i, .deposit d :: rest => runEvents w (i + d) rest
  | w, i, .weightChange w1 :: rest =>
    let r := runEvents w1 i rest
    ⟨r.finalWeight, r.finalIndex, (w, i) :: r.snaps⟩

/-- Modelled from the spec: the claim path walks the ordered snapshot log
from the delegation's last-settled index, paying
(segment index delta) × (weight in effect during the segment) × (token
amount) per segment, and closes the last segment at the current weight and
global index. -/
def claimFromSnapshots (tokens : ℚ) : ℚ → List (ℚ × ℚ) → ℚ → ℚ → ℚ
  | li, [], wF, iF => (iF - li) * wF * tokens
  | li, (w, i) :: rest, wF, iF =>
    (i - li) * w * tokens + claimFromSnapshots tokens i rest wF iF

/-- Modelled from the spec: the reference computation that credits the
delegation at each deposit individually, at the weight in effect at that
deposit. -/
def referenceRewards (tokens : ℚ) : ℚ → List RewardEvent → ℚ
  | _, [] => 0
  | w, .deposit d :: rest => tokens * w * d + referenceRewards tokens w rest
  | _, .weightChange w1 :: rest => referenceRewards tokens w1 rest

/-- Weight governing the first snapshot-delimited segment. -/
def firstSegmentWeight : List (ℚ × ℚ) → ℚ → ℚ
  | [], wF => wF
  | (w, _) :: _, _ => w

theorem firstSegmentWeight_runEvents (w i : ℚ) (es : List RewardEvent) :
    firstSegmentWeight (runEvents w i es).snaps (runEvents w i es).finalWeight = w := by
  induction es generalizing w i with
  | nil => rfl
  | cons e rest ih =>
    cases e with
    | deposit d => exact ih w (i + d)
    | weightChange w1 => rfl

theorem claimFromSnapshots_shift (tokens li li' wF iF : ℚ) (snaps : List (ℚ × ℚ)) :
    claimFromSnapshots tokens li snaps wF iF =
      claimFromSnapshots tokens li' snaps wF iF +
        (li' - li) * firstSegmentWeight snaps wF * tokens := by
  cases snaps with
  | nil =>
    simp only [claimFromSnapshots, firstSegmentWeight]
    ring
  | cons p rest =>
    rcases p with ⟨w, i⟩
    simp only [claimFromSnapshots, firstSegmentWeight]
    ring

/-- C1: for a delegation settled at local index i0, the claim computed by
walking the snapshot log in ascending order — summing (segment index
delta) × (weight in effect during that segment) × (token amount) — equals
the reference computation that credits the delegation at each deposit
individually, for every possible sequence of deposits and weight changes. -/
theorem claim_snapshot_walk_c1 (tokens w0 i0 : ℚ) (events : List RewardEvent) :
    claimFromSnapshots tokens i0 (runEvents w0 i0 events).snaps
        (runEvents w0 i0 events).finalWeight (runEvents w0 i0 events).finalIndex =
      referenceRewards tokens w0 events := by
  induction events generalizing w0 i0 with
  | nil =>
    simp only [runEvents, claimFromSnapshots, referenceRewards]
    ring
  | cons e rest ih =>
    cases e with
    | deposit d =>
      simp only [runEvents, referenceRewards]
      rw [claimFromSnapshots_shift tokens i0 (i0 + d)]
      rw [ih w0 (i0 + d), firstSegmentWeight_runEvents]
      ring
    | weightChange w1 =>
      simp only [runEvents, referenceRewards, claimFromSnapshots]
      rw [ih w1 i0]
      ring

/-! ## Rebalancer (keeper: RebalanceBondTokenWeights)

The external staking ledger is modelled at token level with an exchange rate
of one (no slashing between operations), as in the repository's tests: the
module's delegation to a validator is a native token amount, delegating
adds the minted amount, and unbonding removes and burns exactly the
requested truncated amount. -/

structure RebalAsset where
  denom : String
  rewardWeight : ℚ
  totalValidatorShares : ℚ
  rewardStartTime : ℤ
  deriving Repr, DecidableEq

structure RebalValidator where
  addr : String
  bonded : Bool
  allianceBonded : ℤ
  validatorShares : List (String × ℚ)
  deriving Repr, DecidableEq

structure RebalState where
  othersBonded : ℤ
  validators : List RebalValidator
  deriving Repr, DecidableEq

/-- Per-denom total of unbonded validators' shares, excluded from the
rebalancing denominators but kept in storage. -/
def unbondedShares : List RebalValidator → String → ℚ
  | [], _ => 0
  | v :: rest, d =>
    (if v.bonded then 0 else lookupOr0 v.validatorShares d) + unbondedShares rest d

/-- Native tokens delegated by the module across all its delegations
(GetAllianceBondedAmount). -/
def allianceBondedTotal : List RebalValidator → ℤ
  | [] => 0
  | v :: rest => v.allianceBonded + allianceBondedTotal rest

/-- The module's native tokens inside the bonded pool (delegations to bonded
validators only). -/
def bondedAllianceTotal : List RebalValidator → ℤ
  | [] => 0
  | v :: rest => (if v.bonded then v.allianceBonded else 0) + bondedAllianceTotal rest

/-- TotalBondedTokens of the staking ledger: tokens bonded by others plus
the module's delegations to bonded validators. -/
def totalBondedTokens (s : RebalState) : ℤ :=
  s.othersBonded + bondedAllianceTotal s.validators

/-- nativeBondAmount = totalBondedTokens − allianceBondAmount, as computed
at the top of RebalanceBondTokenWeights. -/
def nativeBondAmount (s : RebalState) : ℤ :=
  totalBondedTokens s - allianceBondedTotal s.validators

/-- Expected native-equivalent bond of one validator: per started asset,
rewardWeight × nativeBondAmount × (validator shares / bonded shares),
counted only when both the validator's shares and the bonded share total
are positive; assets whose reward start time has not passed are skipped. -/
def expectedBondAmount (blockTime : ℤ) (nativeBond : ℤ) (assets : List RebalAsset)
    (unb : String → ℚ) (v : RebalValidator) : ℚ :=
  (assets.map (fun a =>
    if rewardsStarted blockTime a.rewardStartTime then
      let valShares := lookupOr0 v.validatorShares a.denom
      let expectedForAsset := a.rewardWeight * (nativeBond : ℚ)
      let bondedShares := a.totalValidatorShares - unb a.denom
      if 0 < valShares ∧ 0 < bondedShares then
        valShares / bondedShares * expectedForAsset
      else 0
    else 0)).sum

/-- The mint/delegate-or-unbond/burn decision for one bonded validator:
returns (new delegated amount, minted, burned).  Deltas that truncate to
zero are skipped. -/
def rebalanceStep (e : ℚ) (cur : ℤ) : ℤ × ℤ × ℤ :=
  if (cur : ℚ) < e then
    let d := truncateInt (e - (cur : ℚ))
    if d = 0 then (cur, 0, 0) else (cur + d, d, 0)
  else if e < (cur : ℚ) then
    let d := truncateInt ((cur : ℚ) - e)
    if d = 0 then (cur, 0, 0) else (cur - d, 0, d)
  else (cur, 0, 0)

/-- One validator's visit in the rebalancing loop: unbonded validators are
left untouched; bonded validators are moved toward their expected bond. -/
def rebalValStep (blockTime : ℤ) (nativeBond : ℤ) (assets : List RebalAsset)
    (unb : String → ℚ) (v : RebalValidator) : RebalValidator × ℤ × ℤ :=
  if v.bonded then
    let r := rebalanceStep (expectedBondAmount blockTime nativeBond assets unb v)
      v.allianceBonded
    ({ v with allianceBonded := r.1 }, r.2.1, r.2.2)
  else (v, 0, 0)

/-- RebalanceBondTokenWeights: nativeBondAmount and the unbonded share
totals are computed once at the start, then every validator is visited.
Returns the new state together with the total minted and burned native
amounts. -/
def rebalance (blockTime : ℤ) (assets : List RebalAsset) (s : RebalState) :
    RebalState × ℤ × ℤ :=
  let results := s.validators.map (rebalValStep blockTime (nativeBondAmount s) assets
    (fun d => unbondedShares s.validators d))
  ({ s with validators := results.map Prod.fst },
   (results.map (fun r => r.2.1)).sum,
   (results.map (fun r => r.2.2)).sum)

theorem rebalanceStep_of_lt_zero (e : ℚ) (cur : ℤ) (h1 : (cur : ℚ) < e)
    (h2 : truncateInt (e - (cur : ℚ)) = 0) : rebalanceStep e cur = (cur, 0, 0) := by
  simp only [rebalanceStep]
  rw [if_pos h1, if_pos h2]

theorem rebalanceStep_of_lt_pos (e : ℚ) (cur : ℤ) (h1 : (cur : ℚ) < e)
    (h2 : ¬ truncateInt (e - (cur : ℚ)) = 0) :
    rebalanceStep e cur =
      (cur + truncateInt (e - (cur : ℚ)), truncateInt (e - (cur : ℚ)), 0) := by
  simp only [rebalanceStep]
  rw [if_pos h1, if_neg h2]

theorem rebalanceStep_of_gt_zero (e : ℚ) (cur : ℤ) (h1 : e < (cur : ℚ))
    (h2 : truncateInt ((cur : ℚ) - e) = 0) : rebalanceStep e cur = (cur, 0, 0) := by
  simp only [rebalanceStep]
  rw [if_neg (by linarith), if_pos h1, if_pos h2]

theorem rebalanceStep_of_gt_pos (e : ℚ) (cur : ℤ) (h1 : e < (cur : ℚ))
    (h2 : ¬ truncateInt ((cur : ℚ) - e) = 0) :
    rebalanceStep e cur =
      (cur - truncateInt ((cur : ℚ) - e), 0, truncateInt ((cur : ℚ) - e)) := by
  simp only [rebalanceStep]
  rw [if_neg (by linarith), if_pos h1, if_neg h2]

theorem rebalanceStep_of_eq (e : ℚ) (cur : ℤ) (h1 : (cur : ℚ) = e) :
    rebalanceStep e cur = (cur, 0, 0) := by
  simp only [rebalanceStep]
  rw [if_neg (by rw [h1]; exact lt_irrefl e), if_neg (by rw [h1]; exact lt_irrefl e)]

/-- A second visit of the same validator with the same expected bond amount
changes nothing and mints or burns nothing. -/
theorem rebalanceStep_idem (e : ℚ) (cur : ℤ) :
    rebalanceStep e (rebalanceStep e cur).1 = ((rebalanceStep e cur).1, 0, 0) := by
  rcases lt_trichotomy ((cur : ℚ)) e with h1 | h1 | h1
  · have hnn : (0 : ℚ) ≤ e - (cur : ℚ) := by linarith
    have hfl : truncateInt (e - (cur : ℚ)) = ⌊e - (cur : ℚ)⌋ := truncateInt_of_nonneg hnn
    by_cases h2 : truncateInt (e - (cur : ℚ)) = 0
    · rw [rebalanceStep_of_lt_zero e cur h1 h2]
      exact rebalanceStep_of_lt_zero e cur h1 h2
    · rw [rebalanceStep_of_lt_pos e cur h1 h2]
      have hle : ((cur + truncateInt (e - (cur : ℚ)) : ℤ) : ℚ) ≤ e := by
        push_cast
        rw [hfl]
        have := Int.floor_le (e - (cur : ℚ))
        push_cast at this
        linarith
      rcases eq_or_lt_of_le hle with heq | hlt
      · exact rebalanceStep_of_eq e _ heq
      · apply rebalanceStep_of_lt_zero e _ hlt
        have hup := Int.lt_floor_add_one (e - (cur : ℚ))
        have hnn2 : (0 : ℚ) ≤ e - ((cur + truncateInt (e - (cur : ℚ)) : ℤ) : ℚ) := by
          push_cast
          push_cast at hlt
          linarith
        rw [truncateInt_of_nonneg hnn2]
        rw [Int.floor_eq_zero_iff]
        constructor
        · exact hnn2
        · push_cast
          rw [hfl]
          linarith
  · rw [rebalanceStep_of_eq e cur h1]
    exact rebalanceStep_of_eq e cur h1
  · have hnn : (0 : ℚ) ≤ (cur : ℚ) - e := by linarith
    have hfl : truncateInt ((cur : ℚ) - e) = ⌊(cur : ℚ) - e⌋ := truncateInt_of_nonneg hnn
    by_cases h2 : truncateInt ((cur : ℚ) - e) = 0
    · rw [rebalanceStep_of_gt_zero e cur h1 h2]
      exact rebalanceStep_of_gt_zero e cur h1 h2
    · rw [rebalanceStep_of_gt_pos e cur h1 h2]
      have hge : e ≤ ((cur - truncateInt ((cur : ℚ) - e) : ℤ) : ℚ) := by
        push_cast
        rw [hfl]
        have := Int.floor_le ((cur : ℚ) - e)
        linarith
      rcases eq_or_lt_of_le hge with heq | hlt
      · exact rebalanceStep_of_eq e _ heq.symm
      · apply rebalanceStep_of_gt_zero e _ hlt
        have hup := Int.lt_floor_add_one ((cur : ℚ) - e)
        have hnn2 : (0 : ℚ) ≤ ((cur - truncateInt ((cur : ℚ) - e) : ℤ) : ℚ) - e := by
          push_cast
          push_cast at hlt
          linarith
        rw [truncateInt_of_nonneg hnn2]
        rw [Int.floor_eq_zero_iff]
        constructor
        · exact hnn2
        · push_cast
          rw [hfl]
          linarith

theorem rebalValStep_of_bonded (bt nb : ℤ) (assets : List RebalAsset)
    (unb : String → ℚ) (v : RebalValidator) (h : v.bonded = true) :
    rebalValStep bt nb assets unb v =
      ({ v with allianceBonded :=
          (rebalanceStep (expectedBondAmount bt nb assets unb v) v.allianceBonded).1 },
       (rebalanceStep (expectedBondAmount bt nb assets unb v) v.allianceBonded).2.1,
       (rebalanceStep (expectedBondAmount bt nb assets unb v) v.allianceBonded).2.2) := by
  simp only [rebalValStep]
  rw [if_pos h]

theorem rebalValStep_of_unbonded (bt nb : ℤ) (assets : List RebalAsset)
    (unb : String → ℚ) (v : RebalValidator) (h : v.bonded = false) :
    rebalValStep bt nb assets unb v = (v, 0, 0) := by
  simp only [rebalValStep]
  rw [if_neg (by simp [h])]

theorem rebalValStep_idem (bt nb : ℤ) (assets : List RebalAsset)
    (unb : String → ℚ) (v : RebalValidator) :
    rebalValStep bt nb assets unb ((rebalValStep bt nb assets unb v).1) =
      ((rebalValStep bt nb assets unb v).1, 0, 0) := by
  by_cases hb : v.bonded = true
  · rw [rebalValStep_of_bonded bt nb assets unb v hb]
    dsimp only
    rw [rebalValStep_of_bonded bt nb assets unb
      ({ v with allianceBonded :=
        (rebalanceStep (expectedBondAmount bt nb assets unb v) v.allianceBonded).1 }) hb]
    have he : expectedBondAmount bt nb assets unb
        ({ v with allianceBonded :=
          (rebalanceStep (expectedBondAmount bt nb assets unb v) v.allianceBonded).1 }) =
        expectedBondAmount bt nb assets unb v := rfl
    rw [he, rebalanceStep_idem]
  · have hb' : v.bonded = false := by simpa using hb
    rw [rebalValStep_of_unbonded bt nb assets unb v hb']
    exact rebalValStep_of_unbonded bt nb assets unb v hb'

theorem rebalValStep_fst_bonded (bt nb : ℤ) (assets : List RebalAsset)
    (unb : String → ℚ) (v : RebalValidator) :
    ((rebalValStep bt nb assets unb v).1).bonded = v.bonded := by
  by_cases hb : v.bonded = true
  · rw [rebalValStep_of_bonded bt nb assets unb v hb]
  · have hb' : v.bonded = false := by simpa using hb
    rw [rebalValStep_of_unbonded bt nb assets unb v hb']

theorem rebalValStep_fst_shares (bt nb : ℤ) (assets : List RebalAsset)
    (unb : String → ℚ) (v : RebalValidator) :
    ((rebalValStep bt nb assets unb v).1).validatorShares = v.validatorShares := by
  by_cases hb : v.bonded = true
  · rw [rebalValStep_of_bonded bt nb assets unb v hb]
  · have hb' : v.bonded = false := by simpa using hb
    rw [rebalValStep_of_unbonded bt nb assets unb v hb']

theorem unbondedShares_map (vs : List RebalValidator) (f : RebalValidator → RebalValidator)
    (hflag : ∀ v, (f v).bonded = v.bonded)
    (hsh : ∀ v, (f v).validatorShares = v.validatorShares) (d : String) :
    unbondedShares (vs.map f) d = unbondedShares vs d := by
  induction vs with
  | nil => rfl
  | cons v rest ih =>
    simp only [List.map_cons, unbondedShares, hflag v, hsh v, ih]

theorem bondedDiff_map (vs : List RebalValidator) (f : RebalValidator → RebalValidator)
    (hflag : ∀ v, (f v).bonded = v.bonded)
    (hunb : ∀ v, v.bonded = false → f v = v) :
    bondedAllianceTotal (vs.map f) - allianceBondedTotal (vs.map f) =
      bondedAllianceTotal vs - allianceBondedTotal vs := by
  induction vs with
  | nil => rfl
  | cons v rest ih =>
    simp only [List.map_cons, bondedAllianceTotal, allianceBondedTotal]
    by_cases hb : v.bonded = true
    · rw [if_pos (by rw [hflag v]; exact hb), if_pos hb]
      omega
    · have hb' : v.bonded = false := by simpa using hb
      rw [hunb v hb']
      omega

theorem sum_map_zero {α : Type} (l : List α) : (l.map (fun _ => (0 : ℤ))).sum = 0 := by
  induction l with
  | nil => rfl
  | cons a t ih => simp [ih]

theorem rebalance_fst (bt : ℤ) (assets : List RebalAsset) (s : RebalState) :
    (rebalance bt assets s).1 =
      { s with validators := s.validators.map (fun v =>
          (rebalValStep bt (nativeBondAmount s) assets
            (fun d => unbondedShares s.validators d) v).1) } := by
  simp [rebalance, List.map_map]

theorem rebalance_minted (bt : ℤ) (assets : List RebalAsset) (s : RebalState) :
    (rebalance bt assets s).2.1 =
      (s.validators.map (fun v =>
        (rebalValStep bt (nativeBondAmount s) assets
          (fun d => unbondedShares s.validators d) v).2.1)).sum := by
  simp only [rebalance, List.map_map]
  rfl

theorem rebalance_burned (bt : ℤ) (assets : List RebalAsset) (s : RebalState) :
    (rebalance bt assets s).2.2 =
      (s.validators.map (fun v =>
        (rebalValStep bt (nativeBondAmount s) assets
          (fun d => unbondedShares s.validators d) v).2.2)).sum := by
  simp only [rebalance, List.map_map]
  rfl

/-- C7: invoking the rebalancer twice in succession with no intervening
state change mints and burns zero additional native tokens on the second
invocation, and the second run leaves the state exactly as the first run
left it — in particular the total bonded amount and every validator's
delegated native amount are unchanged. -/
theorem rebalancer_idempotent_c7 (blockTime : ℤ) (assets : List RebalAsset)
    (s : RebalState) :
    (rebalance blockTime assets (rebalance blockTime assets s).1).2.1 = 0
    ∧ (rebalance blockTime assets (rebalance blockTime assets s).1).2.2 = 0
    ∧ (rebalance blockTime assets (rebalance blockTime assets s).1).1 =
        (rebalance blockTime assets s).1 := by
  have hg_flag : ∀ v : RebalValidator,
      ((rebalValStep blockTime (nativeBondAmount s) assets
        (fun d => unbondedShares s.validators d) v).1).bonded = v.bonded :=
    fun v => rebalValStep_fst_bonded _ _ _ _ v
  have hg_sh : ∀ v : RebalValidator,
      ((rebalValStep blockTime (nativeBondAmount s) assets
        (fun d => unbondedShares s.validators d) v).1).validatorShares =
        v.validatorShares :=
    fun v => rebalValStep_fst_shares _ _ _ _ v
  have hg_unb : ∀ v : RebalValidator, v.bonded = false →
      (rebalValStep blockTime (nativeBondAmount s) assets
        (fun d => unbondedShares s.validators d) v).1 = v := by
    intro v h
    rw [rebalValStep_of_unbonded _ _ _ _ v h]
  have h1 := rebalance_fst blockTime assets s
  have h1v : (rebalance blockTime assets s).1.validators =
      s.validators.map (fun v => (rebalValStep blockTime (nativeBondAmount s) assets
        (fun d => unbondedShares s.validators d) v).1) := by
    rw [h1]
  have hub : (fun d => unbondedShares (rebalance blockTime assets s).1.validators d) =
      (fun d => unbondedShares s.validators d) := by
    funext d
    rw [h1v]
    exact unbondedShares_map _ _ hg_flag hg_sh d
  have hnb : nativeBondAmount (rebalance blockTime assets s).1 = nativeBondAmount s := by
    rw [h1]
    show s.othersBonded +
        bondedAllianceTotal (s.validators.map (fun v =>
          (rebalValStep blockTime (nativeBondAmount s) assets
            (fun d => unbondedShares s.validators d) v).1)) -
        allianceBondedTotal (s.validators.map (fun v =>
          (rebalValStep blockTime (nativeBondAmount s) assets
            (fun d => unbondedShares s.validators d) v).1)) =
      s.othersBonded + bondedAllianceTotal s.validators - allianceBondedTotal s.validators
    have hd := bondedDiff_map s.validators _ hg_flag hg_unb
    omega
  refine ⟨?_, ?_, ?_⟩
  · rw [rebalance_minted blockTime assets (rebalance blockTime assets s).1, hnb, hub,
      h1v, List.map_map]
    have hpt : ((fun v => (rebalValStep blockTime (nativeBondAmount s) assets
        (fun d => unbondedShares s.validators d) v).2.1) ∘
          (fun v => (rebalValStep blockTime (nativeBondAmount s) assets
            (fun d => unbondedShares s.validators d) v).1)) = (fun _ => (0 : ℤ)) := by
      funext v
      simp only [Function.comp]
      rw [rebalValStep_idem]
    rw [hpt, sum_map_zero]
  · rw [rebalance_burned blockTime assets (rebalance blockTime assets s).1, hnb, hub,
      h1v, List.map_map]
    have hpt : ((fun v => (rebalValStep blockTime (nativeBondAmount s) assets
        (fun d => unbondedShares s.validators d) v).2.2) ∘
          (fun v => (rebalValStep blockTime (nativeBondAmount s) assets
            (fun d => unbondedShares s.validators d) v).1)) = (fun _ => (0 : ℤ)) := by
      funext v
      simp only [Function.comp]
      rw [rebalValStep_idem]
    rw [hpt, sum_map_zero]
  · rw [rebalance_fst blockTime assets (rebalance blockTime assets s).1, hnb, hub,
      h1v, List.map_map]
    have hpt : ((fun v => (rebalValStep blockTime (nativeBondAmount s) assets
        (fun d => unbondedShares s.validators d) v).1) ∘
          (fun v => (rebalValStep blockTime (nativeBondAmount s) assets
            (fun d => unbondedShares s.validators d) v).1)) =
        (fun v => (rebalValStep blockTime (nativeBondAmount s) assets
          (fun d => unbondedShares s.validators d) v).1) := by
      funext v
      simp only [Function.comp]
      rw [rebalValStep_idem]
    rw [hpt, h1]

end Alliance
